import Mathlib

/-!
Verification of the wallet key-management and transaction-signing engine of the
web3wallet repository, against its natural-language specification.

The embedding follows the TypeScript source:
* `KeyManager` (src/services/wallet/KeyManager.ts): PIN lifecycle, mnemonic and
  private-key storage, the wallet registry, and the `encrypt`/`decrypt` pair.
  The device keychain and the encrypted key-value storage are external
  collaborators; they are modelled as explicit state (`VaultState`).  Calls into
  them can throw at runtime; each such call site takes an explicit `… Throws`
  flag that injects the failure, mirroring the `try/catch` structure of the
  source.  JavaScript strings are modelled as Lean `String`s and byte buffers as
  `List Nat` of byte values.
* `WalletService` (wallet creation flows), `TransactionService` (nonce/gas
  filling and replace-by-fee), `WalletConnectService.approveSession` and
  `RequestHandler.formatRequest`/`decodeMessage`.

`KeyManager.encrypt` base64-encodes the UTF-8 bytes of
`JSON.stringify({ data, salt })`; `decrypt` reverses that pipeline.  The first
part of this file therefore gives executable UTF-8, base64 and JSON-string
codecs with their round-trip proofs.
-/

set_option autoImplicit false

namespace Web3Wallet

/-! ### Hexadecimal digits (used by JSON `\u00XX` escapes, by hex message
decoding, and by the JavaScript `Number.prototype.toString(16)` that `hashPin`
relies on). -/

/-- Lowercase hexadecimal digit character for a value `n < 16`, as produced by
JavaScript hex formatting. -/
def hexDigitChar (n : Nat) : Char :=
  if n < 10 then Char.ofNat (48 + n) else Char.ofNat (87 + n)

/-- Value of a hexadecimal digit character (both cases accepted), `none` for a
non-hex character. -/
def hexVal (c : Char) : Option Nat :=
  if 48 ≤ c.toNat ∧ c.toNat ≤ 57 then some (c.toNat - 48)
  else if 97 ≤ c.toNat ∧ c.toNat ≤ 102 then some (c.toNat - 87)
  else if 65 ≤ c.toNat ∧ c.toNat ≤ 70 then some (c.toNat - 55)
  else none

theorem hexVal_hexDigitChar {n : Nat} (h : n < 16) : hexVal (hexDigitChar n) = some n := by
  interval_cases n <;> decide

/-! ### UTF-8 (`Buffer.from(string)` / `buffer.toString('utf8')`) -/

/-- UTF-8 encoding of a single unicode scalar value. -/
def utf8EncodeChar (c : Char) : List Nat :=
  if c.toNat < 128 then [c.toNat]
  else if c.toNat < 2048 then [192 + c.toNat / 64, 128 + c.toNat % 64]
  else if c.toNat < 65536 then [224 + c.toNat / 4096, 128 + c.toNat / 64 % 64, 128 + c.toNat % 64]
  else [240 + c.toNat / 262144, 128 + c.toNat / 4096 % 64, 128 + c.toNat / 64 % 64,
    128 + c.toNat % 64]

/-- UTF-8 encoding of a character sequence, as `Buffer.from(s)` produces. -/
def utf8Encode (cs : List Char) : List Nat :=
  (cs.map utf8EncodeChar).flatten

/-- Continuation-byte test. -/
def isCont (b : Nat) : Bool := 128 ≤ b && b < 192

/-- Decode one UTF-8 encoded scalar value from the head of a byte list,
returning it with the unconsumed remainder.  Decoding is strict: malformed
sequences yield `none` (Node substitutes U+FFFD there; no claim exercises that
corner, all decodes in the theorems below are applied to encoder output). -/
def utf8DecodeOne : List Nat → Option (Char × List Nat)
  | [] => none
  | b1 :: rest =>
    if b1 < 128 then some (Char.ofNat b1, rest)
    else if b1 < 192 then none
    else if b1 < 224 then
      match rest with
      | b2 :: rest2 =>
        if isCont b2 then some (Char.ofNat ((b1 - 192) * 64 + (b2 - 128)), rest2) else none
      | [] => none
    else if b1 < 240 then
      match rest with
      | b2 :: b3 :: rest2 =>
        if isCont b2 && isCont b3 then
          some (Char.ofNat ((b1 - 224) * 4096 + (b2 - 128) * 64 + (b3 - 128)), rest2)
        else none
      | _ => none
    else if b1 < 248 then
      match rest with
      | b2 :: b3 :: b4 :: rest2 =>
        if isCont b2 && isCont b3 && isCont b4 then
          some (Char.ofNat
            ((b1 - 240) * 262144 + (b2 - 128) * 4096 + (b3 - 128) * 64 + (b4 - 128)), rest2)
        else none
      | _ => none
    else none

theorem utf8DecodeOne_length {bs rest : List Nat} {c : Char}
    (h : utf8DecodeOne bs = some (c, rest)) : rest.length < bs.length := by
  rcases bs with _ | ⟨b1, _ | ⟨b2, _ | ⟨b3, _ | ⟨b4, tl⟩⟩⟩⟩
  · exact Option.noConfusion h
  all_goals
    simp only [utf8DecodeOne] at h
    split_ifs at h <;> simp at h
    all_goals
      obtain ⟨-, rfl⟩ := h
      simp only [List.length_cons]
      omega

/-- Byte-by-byte UTF-8 decoding loop.  The fuel argument only serves structural
recursion; `utf8Decode` instantiates it with the input length, which is always
sufficient because every step consumes at least one byte. -/
def utf8DecodeAux : Nat → List Nat → Option (List Char)
  | _, [] => some []
  | 0, _ :: _ => none
  | fuel + 1, b1 :: rest =>
    match utf8DecodeOne (b1 :: rest) with
    | some (c, rest2) => (utf8DecodeAux fuel rest2).map (fun cs => c :: cs)
    | none => none

/-- UTF-8 decoding of a whole byte list (`buffer.toString('utf8')`). -/
def utf8Decode (bs : List Nat) : Option (List Char) :=
  utf8DecodeAux bs.length bs

theorem utf8DecodeOne_encodeChar (c : Char) (bs : List Nat) :
    utf8DecodeOne (utf8EncodeChar c ++ bs) = some (c, bs) := by
  have hvalid : c.toNat < 55296 ∨ (57343 < c.toNat ∧ c.toNat < 1114112) := c.valid
  have hofNat : Char.ofNat c.toNat = c := Char.ofNat_toNat c
  by_cases h1 : c.toNat < 128
  · rw [utf8EncodeChar, if_pos h1, List.cons_append, List.nil_append]
    simp only [utf8DecodeOne]
    rw [if_pos h1, hofNat]
  · by_cases h2 : c.toNat < 2048
    · rw [utf8EncodeChar, if_neg h1, if_pos h2, List.cons_append, List.cons_append,
        List.nil_append]
      simp only [utf8DecodeOne]
      rw [if_neg (by omega), if_neg (by omega), if_pos (by omega)]
      have hcont : isCont (128 + c.toNat % 64) = true := by
        simp only [isCont, Bool.and_eq_true, decide_eq_true_eq]; omega
      rw [if_pos hcont]
      have harith : (192 + c.toNat / 64 - 192) * 64 + (128 + c.toNat % 64 - 128) = c.toNat := by
        omega
      rw [harith, hofNat]
    · by_cases h3 : c.toNat < 65536
      · rw [utf8EncodeChar, if_neg h1, if_neg h2, if_pos h3, List.cons_append, List.cons_append,
          List.cons_append, List.nil_append]
        simp only [utf8DecodeOne]
        rw [if_neg (by omega), if_neg (by omega), if_neg (by omega), if_pos (by omega)]
        have hcont : (isCont (128 + c.toNat / 64 % 64) && isCont (128 + c.toNat % 64)) = true := by
          simp only [isCont, Bool.and_eq_true, decide_eq_true_eq]; omega
        rw [if_pos hcont]
        have harith : (224 + c.toNat / 4096 - 224) * 4096 + (128 + c.toNat / 64 % 64 - 128) * 64 +
            (128 + c.toNat % 64 - 128) = c.toNat := by omega
        rw [harith, hofNat]
      · have h4 : c.toNat < 1114112 := by omega
        rw [utf8EncodeChar, if_neg h1, if_neg h2, if_neg h3, List.cons_append, List.cons_append,
          List.cons_append, List.cons_append, List.nil_append]
        simp only [utf8DecodeOne]
        rw [if_neg (by omega), if_neg (by omega), if_neg (by omega), if_neg (by omega),
          if_pos (by omega)]
        have hcont : (isCont (128 + c.toNat / 4096 % 64) && isCont (128 + c.toNat / 64 % 64) &&
            isCont (128 + c.toNat % 64)) = true := by
          simp only [isCont, Bool.and_eq_true, decide_eq_true_eq]; omega
        rw [if_pos hcont]
        have harith : (240 + c.toNat / 262144 - 240) * 262144 +
            (128 + c.toNat / 4096 % 64 - 128) * 4096 +
            (128 + c.toNat / 64 % 64 - 128) * 64 + (128 + c.toNat % 64 - 128) = c.toNat := by
          omega
        rw [harith, hofNat]

theorem utf8EncodeChar_ne_nil (c : Char) : utf8EncodeChar c ≠ [] := by
  rw [utf8EncodeChar]
  split_ifs <;> simp

theorem utf8DecodeAux_utf8Encode (cs : List Char) :
    ∀ fuel : Nat, (utf8Encode cs).length ≤ fuel →
      utf8DecodeAux fuel (utf8Encode cs) = some cs := by
  induction cs with
  | nil => intro fuel _; rw [show utf8Encode [] = [] from rfl, utf8DecodeAux.eq_def]; simp
  | cons c cs ih =>
    intro fuel hfuel
    have hsplit : utf8Encode (c :: cs) = utf8EncodeChar c ++ utf8Encode cs := by
      simp [utf8Encode]
    rcases hhd : utf8EncodeChar c with _ | ⟨b1, tl⟩
    · exact absurd hhd (utf8EncodeChar_ne_nil c)
    have hcons : utf8Encode (c :: cs) = b1 :: (tl ++ utf8Encode cs) := by
      rw [hsplit, hhd, List.cons_append]
    rcases fuel with _ | f
    · rw [hcons] at hfuel; simp at hfuel
    rw [hcons, utf8DecodeAux, ← List.cons_append, ← hhd, utf8DecodeOne_encodeChar]
    have hlen : (utf8Encode cs).length ≤ f := by
      rw [hsplit] at hfuel
      have : 1 ≤ (utf8EncodeChar c).length := by
        rcases hnil : utf8EncodeChar c with _ | _
        · exact absurd hnil (utf8EncodeChar_ne_nil c)
        · simp
      simp only [List.length_append] at hfuel
      omega
    simp only [ih f hlen, Option.map_some']

theorem utf8Decode_utf8Encode (cs : List Char) : utf8Decode (utf8Encode cs) = some cs :=
  utf8DecodeAux_utf8Encode cs (utf8Encode cs).length (Nat.le_refl _)

theorem utf8EncodeChar_lt_256 (c : Char) : ∀ b ∈ utf8EncodeChar c, b < 256 := by
  have hvalid : c.toNat < 55296 ∨ (57343 < c.toNat ∧ c.toNat < 1114112) := c.valid
  intro b hb
  by_cases h1 : c.toNat < 128
  · rw [utf8EncodeChar, if_pos h1] at hb
    simp only [List.mem_singleton] at hb
    omega
  · by_cases h2 : c.toNat < 2048
    · rw [utf8EncodeChar, if_neg h1, if_pos h2] at hb
      simp only [List.mem_cons, List.mem_singleton, List.not_mem_nil, or_false] at hb
      rcases hb with rfl | rfl <;> omega
    · by_cases h3 : c.toNat < 65536
      · rw [utf8EncodeChar, if_neg h1, if_neg h2, if_pos h3] at hb
        simp only [List.mem_cons, List.mem_singleton, List.not_mem_nil, or_false] at hb
        rcases hb with rfl | rfl | rfl <;> omega
      · rw [utf8EncodeChar, if_neg h1, if_neg h2, if_neg h3] at hb
        simp only [List.mem_cons, List.mem_singleton, List.not_mem_nil, or_false] at hb
        rcases hb with rfl | rfl | rfl | rfl <;> omega

theorem utf8Encode_lt_256 (cs : List Char) : ∀ b ∈ utf8Encode cs, b < 256 := by
  intro b hb
  simp only [utf8Encode, List.mem_flatten, List.mem_map] at hb
  obtain ⟨l, ⟨c, _, rfl⟩, hbl⟩ := hb
  exact utf8EncodeChar_lt_256 c b hbl

/-! ### Base64 (`buffer.toString('base64')` / `Buffer.from(s, 'base64')`) -/

/-- The standard base64 alphabet. -/
def base64Alphabet : List Char :=
  "ABCDEFGHIJKLMNOPQRSTUVWXYZabcdefghijklmnopqrstuvwxyz0123456789+/".data

/-- Character for a sextet value `n < 64`. -/
def b64c (n : Nat) : Char := base64Alphabet.getD n 'A'

/-- Sextet value of a base64 character, `none` for characters outside the
alphabet (in particular for the `'='` padding). -/
def b64v (c : Char) : Option Nat := base64Alphabet.findIdx? (· == c)

theorem b64v_b64c {n : Nat} (h : n < 64) : b64v (b64c n) = some n := by
  interval_cases n <;> decide

theorem b64c_ne_pad {n : Nat} (h : n < 64) : b64c n ≠ '=' := by
  interval_cases n <;> decide

/-- Standard base64 encoding of a byte list, three bytes to four characters,
`'='`-padded. -/
def base64Encode : List Nat → List Char
  | [] => []
  | [a] => [b64c (a / 4), b64c (a % 4 * 16), '=', '=']
  | [a, b] => [b64c (a / 4), b64c (a % 4 * 16 + b / 16), b64c (b % 16 * 4), '=']
  | a :: b :: c :: rest =>
    b64c (a / 4) :: b64c (a % 4 * 16 + b / 16) :: b64c (b % 16 * 4 + c / 64) :: b64c (c % 64) ::
      base64Encode rest

/-- Base64 decoding.  Strict on its domain: a correctly padded encoding of a
byte list decodes to it, anything else yields `none` (Node's decoder is
forgiving off this domain; no claim exercises that corner). -/
def base64Decode : List Char → Option (List Nat)
  | [] => some []
  | c1 :: c2 :: c3 :: c4 :: rest =>
    match b64v c1, b64v c2 with
    | some v1, some v2 =>
      if c3 = '=' then
        if c4 = '=' ∧ rest = [] then some [v1 * 4 + v2 / 16] else none
      else
        match b64v c3 with
        | some v3 =>
          if c4 = '=' then
            if rest = [] then some [v1 * 4 + v2 / 16, v2 % 16 * 16 + v3 / 4] else none
          else
            match b64v c4, base64Decode rest with
            | some v4, some tail =>
              some ((v1 * 4 + v2 / 16) :: (v2 % 16 * 16 + v3 / 4) :: (v3 % 4 * 64 + v4) :: tail)
            | _, _ => none
        | none => none
    | _, _ => none
  | _ => none

theorem base64Decode_base64Encode :
    ∀ bs : List Nat, (∀ b ∈ bs, b < 256) → base64Decode (base64Encode bs) = some bs
  | [], _ => rfl
  | [a], h => by
    have ha : a < 256 := h a (by simp)
    rw [show base64Encode [a] = [b64c (a / 4), b64c (a % 4 * 16), '=', '='] from rfl]
    simp only [base64Decode]
    rw [b64v_b64c (by omega), b64v_b64c (by omega)]
    simp only [if_pos rfl, and_self, if_pos]
    have harith : a / 4 * 4 + a % 4 * 16 / 16 = a := by omega
    rw [harith]
  | [a, b], h => by
    have ha : a < 256 := h a (by simp)
    have hb : b < 256 := h b (by simp)
    have hne : b64c (b % 16 * 4) ≠ '=' := b64c_ne_pad (by omega)
    have harith1 : a / 4 * 4 + (a % 4 * 16 + b / 16) / 16 = a := by omega
    have harith2 : (a % 4 * 16 + b / 16) % 16 * 16 + b % 16 * 4 / 4 = b := by omega
    rw [show base64Encode [a, b] =
      [b64c (a / 4), b64c (a % 4 * 16 + b / 16), b64c (b % 16 * 4), '='] from rfl]
    simp only [base64Decode]
    rw [b64v_b64c (by omega), b64v_b64c (by omega), b64v_b64c (by omega)]
    simp only [hne, if_false, ite_false, if_pos rfl, ite_true, harith1, harith2,
      if_true, eq_self_iff_true]
  | a :: b :: c :: rest, h => by
    have ha : a < 256 := h a (by simp)
    have hb : b < 256 := h b (by simp)
    have hc : c < 256 := h c (by simp)
    have ih := base64Decode_base64Encode rest (fun x hx => h x (by simp [hx]))
    have hne1 : b64c (b % 16 * 4 + c / 64) ≠ '=' := b64c_ne_pad (by omega)
    have hne2 : b64c (c % 64) ≠ '=' := b64c_ne_pad (by omega)
    have harith1 : a / 4 * 4 + (a % 4 * 16 + b / 16) / 16 = a := by omega
    have harith2 : (a % 4 * 16 + b / 16) % 16 * 16 + (b % 16 * 4 + c / 64) / 4 = b := by omega
    have harith3 : (b % 16 * 4 + c / 64) % 4 * 64 + c % 64 = c := by omega
    rw [show base64Encode (a :: b :: c :: rest) =
      b64c (a / 4) :: b64c (a % 4 * 16 + b / 16) :: b64c (b % 16 * 4 + c / 64) :: b64c (c % 64) ::
        base64Encode rest from rfl]
    simp only [base64Decode]
    rw [b64v_b64c (by omega), b64v_b64c (by omega), b64v_b64c (by omega), b64v_b64c (by omega)]
    simp only [hne1, hne2, if_false, ite_false, ih, harith1, harith2, harith3]

/-! ### JSON string escaping (`JSON.stringify` on strings) and the matching
fragment of `JSON.parse` -/

/-- The escape of a single character inside a JSON string literal, exactly as
`JSON.stringify` produces it: `"` and `\` get a backslash escape, the five
named control characters get their short escapes, the remaining control
characters become `\u00XX`, everything else is emitted literally. -/
def jsonEscapeChar (c : Char) : List Char :=
  if c = '"' then ['\\', '"']
  else if c = '\\' then ['\\', '\\']
  else if c = Char.ofNat 8 then ['\\', 'b']
  else if c = Char.ofNat 9 then ['\\', 't']
  else if c = Char.ofNat 10 then ['\\', 'n']
  else if c = Char.ofNat 12 then ['\\', 'f']
  else if c = Char.ofNat 13 then ['\\', 'r']
  else if c.toNat < 32 then
    ['\\', 'u', '0', '0', hexDigitChar (c.toNat / 16), hexDigitChar (c.toNat % 16)]
  else [c]

/-- A JSON string literal: opening quote, escaped content, closing quote. -/
def jsonQuote (cs : List Char) : List Char :=
  '"' :: (cs.map jsonEscapeChar).flatten ++ ['"']

/-- One step of parsing the body of a JSON string literal: either the closing
quote (`(none, rest)`) or one unescaped content character (`(some c, rest)`).
This is the string fragment of `JSON.parse`; surrogate-pair `\uXXXX` escapes
are rejected, which is faithful on every string `JSON.stringify` emits (it
only uses `\u00XX`, for control characters). -/
def jsonUnquoteStep : List Char → Option (Option Char × List Char)
  | [] => none
  | c :: rest =>
    if c = '"' then some (none, rest)
    else if c = '\\' then
      match rest with
      | [] => none
      | e :: rest2 =>
        if e = '"' ∨ e = '\\' ∨ e = '/' then some (some e, rest2)
        else if e = 'b' then some (some (Char.ofNat 8), rest2)
        else if e = 't' then some (some (Char.ofNat 9), rest2)
        else if e = 'n' then some (some (Char.ofNat 10), rest2)
        else if e = 'f' then some (some (Char.ofNat 12), rest2)
        else if e = 'r' then some (some (Char.ofNat 13), rest2)
        else if e = 'u' then
          match rest2 with
          | h1 :: h2 :: h3 :: h4 :: rest3 =>
            match hexVal h1, hexVal h2, hexVal h3, hexVal h4 with
            | some a, some b, some c2, some d =>
              if a * 4096 + b * 256 + c2 * 16 + d < 55296 then
                some (some (Char.ofNat (a * 4096 + b * 256 + c2 * 16 + d)), rest3)
              else none
            | _, _, _, _ => none
          | _ => none
        else none
    else if c.toNat < 32 then none
    else some (some c, rest)

/-- Loop for `jsonUnquoteStep`; the fuel only serves structural recursion
(`jsonUnquote` passes the input length, which is sufficient because every step
consumes at least one character). -/
def jsonUnquoteAux : Nat → List Char → Option (List Char × List Char)
  | 0, _ => none
  | fuel + 1, cs =>
    match jsonUnquoteStep cs with
    | none => none
    | some (none, rest) => some ([], rest)
    | some (some c, rest) => (jsonUnquoteAux fuel rest).map (fun p => (c :: p.1, p.2))

/-- Parse the body of a JSON string literal (the input starts after the opening
quote), returning the unescaped content and the remainder after the closing
quote. -/
def jsonUnquote (cs : List Char) : Option (List Char × List Char) :=
  jsonUnquoteAux cs.length cs

theorem jsonUnquoteStep_escapeChar (c : Char) (tail : List Char) :
    jsonUnquoteStep (jsonEscapeChar c ++ tail) = some (some c, tail) := by
  rw [jsonEscapeChar]
  by_cases h1 : c = '"'
  · subst h1; rw [if_pos rfl]; rfl
  rw [if_neg h1]
  by_cases h2 : c = '\\'
  · subst h2; rw [if_pos rfl]; rfl
  rw [if_neg h2]
  by_cases h3 : c = Char.ofNat 8
  · subst h3; rw [if_pos rfl]; rfl
  rw [if_neg h3]
  by_cases h4 : c = Char.ofNat 9
  · subst h4; rw [if_pos rfl]; rfl
  rw [if_neg h4]
  by_cases h5 : c = Char.ofNat 10
  · subst h5; rw [if_pos rfl]; rfl
  rw [if_neg h5]
  by_cases h6 : c = Char.ofNat 12
  · subst h6; rw [if_pos rfl]; rfl
  rw [if_neg h6]
  by_cases h7 : c = Char.ofNat 13
  · subst h7; rw [if_pos rfl]; rfl
  rw [if_neg h7]
  by_cases h8 : c.toNat < 32
  · rw [if_pos h8]
    have hx3 : hexVal (hexDigitChar (c.toNat / 16)) = some (c.toNat / 16) :=
      hexVal_hexDigitChar (by omega)
    have hx4 : hexVal (hexDigitChar (c.toNat % 16)) = some (c.toNat % 16) :=
      hexVal_hexDigitChar (by omega)
    have harith1 : 0 * 4096 + 0 * 256 + c.toNat / 16 * 16 + c.toNat % 16 = c.toNat := by omega
    have harith2 : c.toNat / 16 * 16 + c.toNat % 16 = c.toNat := by omega
    have hlt : c.toNat < 55296 := by omega
    have hx0 : hexVal '0' = some 0 := by decide
    simp only [List.cons_append, List.nil_append, jsonUnquoteStep]
    simp [hx0, hx3, hx4, harith1, harith2, hlt, Char.ofNat_toNat]
  · rw [if_neg h8]
    simp only [List.cons_append, List.nil_append, jsonUnquoteStep]
    rw [if_neg h1, if_neg h2, if_neg (by omega : ¬c.toNat < 32)]

/-- Each character contributes at least one character of escaped output. -/
theorem length_le_escaped (cs : List Char) :
    cs.length ≤ ((cs.map jsonEscapeChar).flatten).length := by
  induction cs with
  | nil => simp
  | cons c cs ih =>
    have hne : jsonEscapeChar c ≠ [] := by
      rw [jsonEscapeChar]; split_ifs <;> simp
    have hpos : 1 ≤ (jsonEscapeChar c).length := by
      rcases hl : jsonEscapeChar c with _ | _
      · exact absurd hl hne
      · simp
    simp only [List.map_cons, List.flatten_cons, List.length_cons, List.length_append]
    omega

theorem jsonUnquoteAux_escaped (cs : List Char) :
    ∀ (fuel : Nat) (rest : List Char), cs.length + 1 ≤ fuel →
      jsonUnquoteAux fuel ((cs.map jsonEscapeChar).flatten ++ '"' :: rest) = some (cs, rest) := by
  induction cs with
  | nil =>
    intro fuel rest hfuel
    rcases fuel with _ | f
    · omega
    · simp only [List.map_nil, List.flatten_nil, List.nil_append, jsonUnquoteAux]
      rw [show jsonUnquoteStep ('"' :: rest) = some (none, rest) from rfl]
  | cons c cs ih =>
    intro fuel rest hfuel
    rcases fuel with _ | f
    · omega
    · have hsplit : ((c :: cs).map jsonEscapeChar).flatten ++ '"' :: rest =
          jsonEscapeChar c ++ ((cs.map jsonEscapeChar).flatten ++ '"' :: rest) := by
        simp
      rw [hsplit, jsonUnquoteAux, jsonUnquoteStep_escapeChar]
      simp only [ih f rest (by simpa using hfuel), Option.map_some']

theorem jsonUnquote_escaped (cs rest : List Char) :
    jsonUnquote ((cs.map jsonEscapeChar).flatten ++ '"' :: rest) = some (cs, rest) := by
  apply jsonUnquoteAux_escaped
  have h1 := length_le_escaped cs
  simp only [List.length_append, List.length_cons]
  omega

/-! ### `JSON.stringify({ data, salt })` and the matching fragment of
`JSON.parse` used by `KeyManager.decrypt` -/

/-- `JSON.stringify({ data, salt })` for string-valued `data` and `salt`:
object keys in insertion order, no whitespace, each value a JSON string
literal. -/
def stringifyDataSalt (data salt : List Char) : List Char :=
  "\x7b\"data\":".data ++ jsonQuote data ++ ",\"salt\":".data ++ jsonQuote salt ++ "\x7d".data

/-- Drop an expected literal head from the input, `none` if the input does not
start with it. -/
def dropLit : List Char → List Char → Option (List Char)
  | [], cs => some cs
  | _ :: _, [] => none
  | l :: ls, c :: cs => if c = l then dropLit ls cs else none

theorem dropLit_append (ls rest : List Char) : dropLit ls (ls ++ rest) = some rest := by
  induction ls with
  | nil => rfl
  | cons l ls ih => simp [dropLit, ih]

/-- The fragment of `JSON.parse` exercised by `KeyManager.decrypt`: parse
`{"data":<string>,"salt":<string>}` (exactly the shape `KeyManager.encrypt`
serializes) and return the two field values. -/
def parseDataSalt (cs : List Char) : Option (List Char × List Char) :=
  match dropLit "\x7b\"data\":\"".data cs with
  | none => none
  | some cs1 =>
    match jsonUnquote cs1 with
    | none => none
    | some (dataVal, cs2) =>
      match dropLit ",\"salt\":\"".data cs2 with
      | none => none
      | some cs3 =>
        match jsonUnquote cs3 with
        | none => none
        | some (saltVal, cs4) =>
          if cs4 = "\x7d".data then some (dataVal, saltVal) else none

theorem parseDataSalt_stringify (dataVal saltVal : List Char) :
    parseDataSalt (stringifyDataSalt dataVal saltVal) = some (dataVal, saltVal) := by
  have hshape : stringifyDataSalt dataVal saltVal =
      "\x7b\"data\":\"".data ++ ((dataVal.map jsonEscapeChar).flatten ++
        '"' :: (",\"salt\":\"".data ++ ((saltVal.map jsonEscapeChar).flatten ++
          '"' :: "\x7d".data))) := by
    simp only [stringifyDataSalt, jsonQuote]
    simp [List.append_assoc]
  rw [hshape, parseDataSalt, dropLit_append]
  simp only []
  rw [jsonUnquote_escaped]
  simp only []
  rw [dropLit_append]
  simp only []
  rw [jsonUnquote_escaped]
  simp

/-! ### KeyManager: `encrypt` / `decrypt`
(src/services/wallet/KeyManager.ts)

`encrypt(data, key)` creates a random throwaway wallet, calls
`wallet.encrypt(key)` and discards the result, then returns
`Buffer.from(JSON.stringify({ data, salt: wallet.address.slice(0, 10) })).toString('base64')`.
The random wallet is modelled by passing its address as an extra argument
(`randomWalletAddress`); the discarded `wallet.encrypt(key)` call has no
observable effect and is not modelled.  Note that, exactly as in the source,
the `key` argument never influences the result. -/

namespace KeyManager

/-- `KeyManager.encrypt` (KeyManager.ts lines 315-324). -/
def encrypt (data key : String) (randomWalletAddress : String) : String :=
  let _ := key
  let salt := randomWalletAddress.data.take 10
  let combined := stringifyDataSalt data.data salt
  String.mk (base64Encode (utf8Encode combined))

/-- `KeyManager.decrypt` (KeyManager.ts lines 329-337): base64-decode, parse the
JSON object, return its `data` field; every failure raises the one generic
`Decryption failed` error.  The `key` argument is never consulted, exactly as
in the source. -/
def decrypt (encrypted key : String) : Except String String :=
  let _ := key
  match base64Decode encrypted.data with
  | none => .error "Decryption failed"
  | some bytes =>
    match utf8Decode bytes with
    | none => .error "Decryption failed"
    | some decoded =>
      match parseDataSalt decoded with
      | none => .error "Decryption failed"
      | some (dataVal, _saltVal) => .ok (String.mk dataVal)

/-- `decrypt` recovers the plaintext from any `encrypt` output under ANY key:
the pipeline is base64/JSON serialization only, the password plays no role. -/
theorem decrypt_encrypt (data key key2 addr : String) :
    decrypt (encrypt data key addr) key2 = .ok data := by
  rw [encrypt, decrypt]
  simp only []
  rw [base64Decode_base64Encode _ (utf8Encode_lt_256 _)]
  simp only []
  rw [utf8Decode_utf8Encode]
  simp only []
  rw [parseDataSalt_stringify]

end KeyManager

/-! ### KeyManager: persistent state and operations

The device keychain and `EncryptedStorage` are external collaborators (an
opaque secure key-value store per the spec); they are modelled as explicit
state.  The JSON (de)serialization of the stored wallet list is abstracted to a
typed field, matching the registry's conceptual shape `[{address,
encryptedPrivateKey, createdAt}]`.  `Date.now()` values are passed as `now`
arguments; external calls that can throw take an explicit `… Throws` flag which
makes the surrounding `try/catch` of the source take its `catch` arm. -/

/-- One entry of the `wallet_list` registry (interface `StoredWallet` in
KeyManager.ts). -/
structure StoredWallet where
  address : String
  encryptedPrivateKey : String
  createdAt : Nat
deriving Repr, DecidableEq, Inhabited

/-- The durable state behind KeyManager: the encrypted-storage mnemonic item,
the `wallet_list` registry, the per-address internet credentials of the device
keychain (keyed by service string, holding username and password), and the
generic-password PIN hash record. -/
structure VaultState where
  mnemonicItem : Option (String × Nat)
  walletList : List StoredWallet
  keychainInternet : List (String × String × String)
  pinHash : Option String
deriving Repr, DecidableEq

/-- The empty device state: nothing stored yet. -/
def VaultState.empty : VaultState := ⟨none, [], [], none⟩

/-- `KEYCHAIN_SERVICE` constant of KeyManager.ts. -/
def KEYCHAIN_SERVICE : String := "com.web3wallet.keys"

/-- `Keychain.setInternetCredentials(server, user, pass)`: store or overwrite
the credentials for `server` (external keychain collaborator). -/
def setCredList (l : List (String × String × String)) (server user pass : String) :
    List (String × String × String) :=
  if l.any (fun e => e.1 == server) then
    l.map (fun e => if e.1 == server then (server, user, pass) else e)
  else l ++ [(server, user, pass)]

/-- `Keychain.getInternetCredentials(server)` (external keychain
collaborator). -/
def getCredList (l : List (String × String × String)) (server : String) :
    Option (String × String × String) :=
  l.find? (fun e => e.1 == server)

namespace KeyManager

/-- `KeyManager.storeMnemonic` (lines 27-45): encrypt the mnemonic with the
PIN, store it with a creation timestamp; any storage failure is caught and
reported as `false`. -/
def storeMnemonic (st : VaultState) (mnemonic pin : String) (randomWalletAddress : String)
    (now : Nat) (setItemThrows : Bool) : Bool × VaultState :=
  let encryptedMnemonic := encrypt mnemonic pin randomWalletAddress
  if setItemThrows then (false, st)
  else (true, { st with mnemonicItem := some (encryptedMnemonic, now) })

/-- `KeyManager.getWalletList` (lines 227-235). -/
def getWalletList (st : VaultState) : List StoredWallet :=
  st.walletList

/-- `KeyManager.addToWalletList` (lines 240-263): upsert by address — update
the existing record in place (keeping its `createdAt`), else append a new
one. -/
def addToWalletList (wallets : List StoredWallet) (address encryptedPrivateKey : String)
    (now : Nat) : List StoredWallet :=
  match wallets.findIdx? (fun w => w.address == address) with
  | some existingIndex =>
    wallets.set existingIndex
      { address := address, encryptedPrivateKey := encryptedPrivateKey,
        createdAt := (wallets.getD existingIndex default).createdAt }
  | none =>
    wallets ++
      [{ address := address, encryptedPrivateKey := encryptedPrivateKey, createdAt := now }]

/-- `KeyManager.storePrivateKey` (lines 68-95): encrypt the key with the PIN,
store it in the keychain under `KEYCHAIN_SERVICE.address`, then upsert the
registry; any failure is caught and reported as `false` (a keychain throw
leaves both stores untouched; a registry-write throw leaves the keychain
already written). -/
def storePrivateKey (st : VaultState) (address privateKey pin : String)
    (randomWalletAddress : String) (now : Nat) (keychainThrows listThrows : Bool) :
    Bool × VaultState :=
  let encryptedKey := encrypt privateKey pin randomWalletAddress
  if keychainThrows then (false, st)
  else
    let newCreds :=
      setCredList st.keychainInternet (KEYCHAIN_SERVICE ++ "." ++ address) address encryptedKey
    let st1 := { st with keychainInternet := newCreds }
    if listThrows then (false, st1)
    else (true, { st1 with walletList := addToWalletList st1.walletList address encryptedKey now })

/-- `KeyManager.retrievePrivateKey` (lines 100-114): read the credentials for
`KEYCHAIN_SERVICE.address`; absent credentials give `null`; a decrypt error is
caught and gives `null`. -/
def retrievePrivateKey (st : VaultState) (address pin : String) : Option String :=
  match getCredList st.keychainInternet (KEYCHAIN_SERVICE ++ "." ++ address) with
  | none => none
  | some credentials =>
    match decrypt credentials.2.2 pin with
    | .ok decrypted => some decrypted
    | .error _ => none

/-- The UTF-16 code unit returned by `charCodeAt(0)` on a one-code-point
string: the code point itself on the BMP, the high surrogate otherwise. -/
def jsCharCode (c : Char) : Nat :=
  if c.toNat < 65536 then c.toNat else 55296 + (c.toNat - 65536) / 1024

/-- `KeyManager.hashPin` (lines 342-349): the rolling hash
`(acc * 31 + charCodeAt) >>> 0` over the PIN's code points, rendered in
lowercase hex by `toString(16)`.  The float accumulator stays below `2^37`, so
`>>> 0` is exactly reduction mod `2^32`. -/
def hashPin (pin : String) : String :=
  let hash := pin.data.foldl (fun acc c => (acc * 31 + jsCharCode c) % 4294967296) 0
  String.mk (Nat.toDigits 16 hash)

/-- `KeyManager.setPin` (lines 119-134): store the PIN hash as a generic
keychain password; a keychain throw is caught and reported as `false`. -/
def setPin (st : VaultState) (pin : String) (setThrows : Bool) : Bool × VaultState :=
  let pinHash := hashPin pin
  if setThrows then (false, st)
  else (true, { st with pinHash := some pinHash })

/-- `KeyManager.verifyPin` (lines 139-153): recompute the hash of the supplied
PIN and compare with the stored one; no stored PIN gives `false`. -/
def verifyPin (st : VaultState) (pin : String) : Bool :=
  match st.pinHash with
  | none => false
  | some stored => stored == hashPin pin

/-- `KeyManager.hasPin` (lines 158-167). -/
def hasPin (st : VaultState) : Bool :=
  st.pinHash.isSome

/-- `KeyManager.deleteWallet` (lines 268-281): reset the keychain credentials
for the address, then keep exactly the registry records whose address
differs. -/
def deleteWallet (st : VaultState) (address : String) : Bool × VaultState :=
  let st1 := { st with keychainInternet :=
    st.keychainInternet.filter (fun e => e.1 != KEYCHAIN_SERVICE ++ "." ++ address) }
  let filtered := st1.walletList.filter (fun w => w.address != address)
  (true, { st1 with walletList := filtered })

end KeyManager

/-! ### WalletService (wallet creation flow)

`createNewWallet` generates a fresh mnemonic and derives the index-0 account
via the external ethers library (`generateMnemonic`,
`createWalletFromMnemonic`); the generated mnemonic and derived
address/private key are therefore passed in as arguments.  The three
persistence steps are then executed IN SEQUENCE WITH THEIR BOOLEAN RESULTS
DISCARDED, exactly as in the source: each of `storeMnemonic`,
`storePrivateKey` and `setPin` catches its own storage errors and returns
`false`, so the surrounding `try/catch` of `createNewWallet` cannot observe a
persistence failure and the function still returns the account. -/

/-- The account shape returned by the wallet creation flow (`WalletAccount` in
src/types, as populated by `createWalletFromMnemonic`). -/
structure WalletAccount where
  address : String
  privateKey : String
  mnemonic : String
deriving Repr, DecidableEq

namespace WalletService

/-- `WalletService.createNewWallet` (lines 72-94 of the wallet service):
store mnemonic → store private key → set PIN, ignoring each step's boolean
result, then return the account.  `none` would be returned only if a step
threw, which none of the three steps does (each catches internally). -/
def createNewWallet (st : VaultState) (mnemonic address privateKey pin : String)
    (randomWalletAddress1 randomWalletAddress2 : String) (now : Nat)
    (mnemonicSetThrows keychainThrows listThrows pinSetThrows : Bool) :
    Option WalletAccount × VaultState :=
  let step1 := KeyManager.storeMnemonic st mnemonic pin randomWalletAddress1 now
    mnemonicSetThrows
  let step2 := KeyManager.storePrivateKey step1.2 address privateKey pin randomWalletAddress2 now
    keychainThrows listThrows
  let step3 := KeyManager.setPin step2.2 pin pinSetThrows
  (some { address := address, privateKey := privateKey, mnemonic := mnemonic }, step3.2)

end WalletService

/-! ### TransactionService (nonce and gas filling, replace-by-fee)

`signAndSend` mutates the transaction request before handing it to
`wallet.sendTransaction`; the embedding returns the transaction as finally
submitted (the network response hash is opaque).  The provider calls
(`getTransactionCount(addr, 'pending')`, `estimateGas`, `getFeeData`) are
external collaborators modelled by a `ProviderEnv`.  JavaScript's `!tx.nonce`
is true both for an absent field and for the number `0`; `optFalsy` models
exactly that truthiness test. -/

/-- The mutable fields of an ethers `TransactionRequest` that `signAndSend`
reads or fills.  `none` models an absent (`undefined`) field; amounts are in
wei. -/
structure TxRequest where
  toAddr : String
  value : Nat
  nonce : Option Nat
  gasPrice : Option Nat
  maxFeePerGas : Option Nat
  gasLimit : Option Nat
  chainId : Nat
deriving Repr, DecidableEq

/-- JavaScript truthiness of `!x` on an optional numeric field: `undefined` and
`0` are both falsy. -/
def optFalsy : Option Nat → Bool
  | none => true
  | some n => n == 0

/-- The provider environment consumed by `signAndSend`: the pending
transaction count of the sender, the gas estimate, the fee data and the chain
id (ProviderService, external). -/
structure ProviderEnv where
  pendingNonce : Nat
  estimatedGas : Nat
  feeGasPrice : Option Nat
  chainId : Nat
deriving Repr, DecidableEq

/-- `ethers.parseUnits(gasPrice, 'gwei')` on a whole-number gwei amount. -/
def parseUnitsGwei (n : Nat) : Nat := n * 1000000000

namespace TransactionService

/-- `TransactionService.signAndSend` (lines 427-457 of the transaction
service), restricted to the request it submits: fill the nonce if `!tx.nonce`,
the gas limit if `!tx.gasLimit`, and the gas price if `!tx.gasPrice &&
!tx.maxFeePerGas`, then sign and send the resulting request. -/
def signAndSend (env : ProviderEnv) (tx : TxRequest) : TxRequest :=
  let tx1 := if optFalsy tx.nonce then { tx with nonce := some env.pendingNonce } else tx
  let tx2 := if optFalsy tx1.gasLimit then { tx1 with gasLimit := some env.estimatedGas } else tx1
  let tx3 :=
    if optFalsy tx2.gasPrice && optFalsy tx2.maxFeePerGas then
      { tx2 with gasPrice := env.feeGasPrice }
    else tx2
  tx3

/-- `TransactionService.cancelTransaction` (lines 572-590): a 0-value transfer
to the wallet's own address at the given nonce with the new gas price, gas
limit 21000, submitted through `signAndSend`.  The wallet address derived from
the private key is passed as `walletAddress`. -/
def cancelTransaction (env : ProviderEnv) (walletAddress : String) (nonce : Nat)
    (gasPriceGwei : Nat) : TxRequest :=
  let tx : TxRequest :=
    { toAddr := walletAddress, value := 0, nonce := some nonce,
      gasPrice := some (parseUnitsGwei gasPriceGwei), maxFeePerGas := none,
      gasLimit := some 21000, chainId := env.chainId }
  signAndSend env tx

/-- `TransactionService.speedUpTransaction` (lines 595-606): the original
request with the gas price overridden, resubmitted through `signAndSend`. -/
def speedUpTransaction (env : ProviderEnv) (originalTx : TxRequest)
    (newGasPriceGwei : Nat) : TxRequest :=
  signAndSend env { originalTx with gasPrice := some (parseUnitsGwei newGasPriceGwei) }

end TransactionService

/-! ### WalletConnectService: session approval

`approveSession` (WalletConnectService.ts lines 158-190) builds the wallet's
supported chains/accounts for the caller's address and reconciles them against
the proposal through `buildApprovedNamespaces`. -/

/-- The requested chains, methods and events of one proposal namespace
(`ProposalTypes.BaseRequiredNamespace`). -/
structure Eip155Namespace where
  chains : List String
  methods : List String
  events : List String
deriving Repr, DecidableEq

/-- A session proposal's `eip155` namespace request: the required and the
optional part. -/
structure SessionProposal where
  requiredNamespace : Eip155Namespace
  optionalNamespace : Eip155Namespace
deriving Repr, DecidableEq

/-- An approved session namespace (`SessionTypes.Namespace`): granted chains,
accounts, methods and events. -/
structure ApprovedNamespace where
  chains : List String
  accounts : List String
  methods : List String
  events : List String
deriving Repr, DecidableEq

/-- Modelled from the spec: `buildApprovedNamespaces` comes from the external
`@walletconnect/utils` package and is not part of this repository's source.
Per the spec, `approveSession` "builds the approved namespace (supported
chains × methods × the caller's accounts)" and "must reconcile exactly against
what was proposed (never grant chains/methods the dApp did not request, even
if the wallet supports more)"; the proposal's requested namespaces are its
required and optional parts together.  The reconciliation therefore keeps
exactly the supported chains/methods/events that the proposal requested, and
the supported accounts that live on a requested chain. -/
def buildApprovedNamespaces (proposal : SessionProposal) (supported : ApprovedNamespace) :
    ApprovedNamespace :=
  let requestedChains := proposal.requiredNamespace.chains ++ proposal.optionalNamespace.chains
  let requestedMethods := proposal.requiredNamespace.methods ++ proposal.optionalNamespace.methods
  let requestedEvents := proposal.requiredNamespace.events ++ proposal.optionalNamespace.events
  { chains := supported.chains.filter (fun c => requestedChains.contains c),
    methods := supported.methods.filter (fun m => requestedMethods.contains m),
    events := supported.events.filter (fun e => requestedEvents.contains e),
    accounts := supported.accounts.filter
      (fun a => requestedChains.any (fun c => (c ++ ":").isPrefixOf a)) }

namespace WalletConnectService

/-- `SUPPORTED_CHAIN_IDS` (constants/chains: the keys of `CHAINS`, numeric keys
in ascending order). -/
def SUPPORTED_CHAIN_IDS : List Nat := [1, 137, 80002, 11155111]

/-- `SUPPORTED_METHODS` (WalletConnectService.ts lines 18-25). -/
def SUPPORTED_METHODS : List String :=
  ["personal_sign", "eth_sign", "eth_signTransaction", "eth_sendTransaction",
   "eth_signTypedData", "eth_signTypedData_v4"]

/-- `SUPPORTED_EVENTS` (WalletConnectService.ts line 28). -/
def SUPPORTED_EVENTS : List String := ["chainChanged", "accountsChanged"]

/-- `WalletConnectService.approveSession` (lines 158-190), restricted to the
namespaces it grants: build `eip155:<id>:<address>` accounts and
`eip155:<id>` chains for every supported chain, then reconcile with the
proposal via `buildApprovedNamespaces`. -/
def approveSession (proposalParams : SessionProposal) (address : String) : ApprovedNamespace :=
  let accounts := SUPPORTED_CHAIN_IDS.map
    (fun chainId => "eip155:" ++ toString chainId ++ ":" ++ address)
  let chains := SUPPORTED_CHAIN_IDS.map (fun chainId => "eip155:" ++ toString chainId)
  buildApprovedNamespaces proposalParams
    { chains := chains, accounts := accounts,
      methods := SUPPORTED_METHODS, events := SUPPORTED_EVENTS }

end WalletConnectService

/-! ### RequestHandler: request formatting
(src/services/walletconnect/RequestHandler.ts) -/

/-- `Buffer.from(hex, 'hex')` on a well-formed even-length hex string; `none`
models a malformed hex payload (the source's `try/catch` arm; Node's `Buffer`
is more forgiving off this domain, which no claim exercises). -/
def hexToBytes : List Char → Option (List Nat)
  | [] => some []
  | c1 :: c2 :: rest =>
    match hexVal c1, hexVal c2 with
    | some hi, some lo => (hexToBytes rest).map (fun bs => (hi * 16 + lo) :: bs)
    | _, _ => none
  | _ => none

/-- Hex rendering of a byte list (two lowercase digits per byte). -/
def hexOfBytes (bs : List Nat) : List Char :=
  (bs.map (fun b => [hexDigitChar (b / 16), hexDigitChar (b % 16)])).flatten

theorem hexToBytes_hexOfBytes :
    ∀ bs : List Nat, (∀ b ∈ bs, b < 256) → hexToBytes (hexOfBytes bs) = some bs := by
  intro bs
  induction bs with
  | nil => intro _; rfl
  | cons b bs ih =>
    intro h
    have hb : b < 256 := h b (by simp)
    have hsplit : hexOfBytes (b :: bs) =
        hexDigitChar (b / 16) :: hexDigitChar (b % 16) :: hexOfBytes bs := by
      simp [hexOfBytes]
    rw [hsplit]
    simp only [hexToBytes]
    rw [hexVal_hexDigitChar (by omega), hexVal_hexDigitChar (by omega)]
    simp only [ih (fun x hx => h x (by simp [hx])), Option.map_some']
    have harith : b / 16 * 16 + b % 16 = b := by omega
    rw [harith]

/-- The display shape produced by `formatRequest` (`WCFormattedRequest`),
restricted to the signing-message arm; the transaction and typed-data arms go
through the external ethers formatting helpers and are outside the formatting
claims. -/
inductive FormattedRequest where
  | message (text : String)
  | otherArm (method : String)
deriving Repr, DecidableEq

namespace RequestHandler

/-- `message.startsWith('0x')`, stated on the character sequence. -/
def isHexMessage (message : String) : Bool :=
  match message.data with
  | '0' :: 'x' :: _ => true
  | _ => false

/-- `RequestHandler.decodeMessage` (lines 184-193): hex-decode a `0x`-prefixed
message to UTF-8 text, fall back to the raw message on failure, return
non-prefixed messages unchanged. -/
def decodeMessage (message : String) : String :=
  if isHexMessage message then
    match hexToBytes (message.data.drop 2) with
    | none => message
    | some bytes =>
      match utf8Decode bytes with
      | none => message
      | some cs => String.mk cs
  else message

/-- `RequestHandler.formatRequest` (lines 17-76), restricted to the
`personal_sign`/`eth_sign` arm: the message is `params[0]` for
`personal_sign` and `params[1]` for `eth_sign`, decoded through
`decodeMessage`.  The remaining arms (transaction and typed-data shapes) are
represented opaquely.  An out-of-range JavaScript index access (`undefined`)
is modelled by `""`; the formatting claims only use two-element params. -/
def formatRequest (method : String) (params : List String) : FormattedRequest :=
  if method == "personal_sign" || method == "eth_sign" then
    let message := if method == "personal_sign" then params.getD 0 "" else params.getD 1 ""
    .message (decodeMessage message)
  else .otherArm method

end RequestHandler

/-! ### Helper lemmas about the vault operations -/

theorem getCredList_setCredList (l : List (String × String × String)) (s u p : String) :
    getCredList (setCredList l s u p) s = some (s, u, p) := by
  rw [setCredList]
  by_cases hany : l.any (fun e => e.1 == s)
  · rw [if_pos hany]
    induction l with
    | nil => simp at hany
    | cons e tl ih =>
      by_cases he : e.1 == s
      · simp only [List.map_cons, if_pos he, getCredList, List.find?_cons, beq_self_eq_true]
      · have htl : tl.any (fun e => e.1 == s) := by
          simp only [List.any_cons, he, Bool.false_or] at hany
          exact hany
        have hef : (e.1 == s) = false := by
          rwa [← Bool.not_eq_true]
        have hhead : (if (e.1 == s) = true then (s, u, p) else e) = e := by
          rw [hef]
          simp
        rw [List.map_cons, hhead]
        simp only [getCredList, List.find?_cons, hef]
        exact ih htl
  · rw [if_neg hany]
    induction l with
    | nil => simp [getCredList, List.find?_cons]
    | cons e tl ih =>
      have he : ¬(e.1 == s) = true := by
        intro hcontra
        exact hany (by simp [List.any_cons, hcontra])
      have hef : (e.1 == s) = false := by
        rwa [← Bool.not_eq_true]
      have htl : ¬(tl.any (fun e => e.1 == s)) = true := by
        intro hcontra
        exact hany (by simp [List.any_cons, hcontra])
      simp only [List.cons_append, getCredList, List.find?_cons, hef]
      exact ih htl

/-- With no storage fault injected, retrieving right after storing returns the
stored private key under EVERY pin, because `decrypt` never consults the
pin. -/
theorem retrieve_after_store (st : VaultState) (address privateKey pin pin2 ra : String)
    (now : Nat) :
    KeyManager.retrievePrivateKey
        (KeyManager.storePrivateKey st address privateKey pin ra now false false).2 address pin2
      = some privateKey := by
  rw [KeyManager.storePrivateKey]
  simp only [if_neg (by decide : ¬(false = true))]
  rw [KeyManager.retrievePrivateKey]
  simp only []
  rw [getCredList_setCredList]
  simp only []
  rw [KeyManager.decrypt_encrypt]

theorem set_eq_self_of_getElem {α : Type} (l : List α) (i : Nat) (a : α)
    (h : l[i]? = some a) : l.set i a = l := by
  apply List.ext_getElem?
  intro n
  rw [List.getElem?_set]
  split
  · next heq =>
      subst heq
      have hlt : i < l.length := by
        by_contra hge
        rw [List.getElem?_eq_none (by omega)] at h
        exact Option.noConfusion h
      rw [if_pos hlt, h]
  · rfl

/-- When the address is already present, `addToWalletList` keeps the registry
length and the address sequence unchanged (in-place update). -/
theorem addToWalletList_mem_length (wallets : List StoredWallet)
    (address encryptedPrivateKey : String) (now : Nat)
    (h : address ∈ wallets.map (fun w => w.address)) :
    (KeyManager.addToWalletList wallets address encryptedPrivateKey now).length
        = wallets.length ∧
      (KeyManager.addToWalletList wallets address encryptedPrivateKey now).map
          (fun w => w.address)
        = wallets.map (fun w => w.address) := by
  obtain ⟨w, hw, hwa⟩ := List.mem_map.mp h
  rcases hfind : wallets.findIdx? (fun w => w.address == address) with _ | i
  · rw [List.findIdx?_eq_none_iff] at hfind
    exact absurd (hfind w hw) (by simp [hwa])
  · obtain ⟨hlt, hp, -⟩ := List.findIdx?_eq_some_iff_getElem.mp hfind
    rw [KeyManager.addToWalletList, hfind]
    simp only []
    refine ⟨List.length_set wallets i _, ?_⟩
    rw [List.map_set]
    apply set_eq_self_of_getElem
    rw [List.getElem?_map, List.getElem?_eq_getElem hlt]
    simp only [Option.map_some']
    have haddr : wallets[i].address = address := by simpa using hp
    simp [haddr]

/-! ### The claims -/

/-- C1: the claim fails on the code.  Storing a private key under PIN `"1234"`
and retrieving it with the different PIN `"0000"` does not return `null`: it
returns the private key, because `decrypt` never consults the PIN.  (The spec
says a retrieval with an incorrect PIN returns null.) -/
theorem C1_wrong_pin_returns_private_key :
    KeyManager.retrievePrivateKey
        (KeyManager.storePrivateKey VaultState.empty "0xAbC123" "0xSecretKeyHex" "1234"
          "0xRandomThrowawayWallet" 5 false false).2
        "0xAbC123" "0000" = some "0xSecretKeyHex" ∧
      ("1234" : String) ≠ "0000" :=
  ⟨retrieve_after_store VaultState.empty "0xAbC123" "0xSecretKeyHex" "1234" "0000"
    "0xRandomThrowawayWallet" 5, by decide⟩

/-- C2: the claim fails on the code.  Decrypting `encrypt(S, P)` with a
different password `P'` does not fail with the generic decrypt error: it
succeeds and returns the plaintext `S`, because neither `encrypt` nor
`decrypt` uses the password (the base64/JSON pipeline carries the plaintext). -/
theorem C2_wrong_password_decrypt_succeeds :
    KeyManager.decrypt
        (KeyManager.encrypt "private-key-material" "password-A" "0x9aF2b1cD44")
        "password-B"
      = .ok "private-key-material" ∧
      ("password-A" : String) ≠ "password-B" :=
  ⟨KeyManager.decrypt_encrypt "private-key-material" "password-A" "password-B" "0x9aF2b1cD44",
    by decide⟩

/-- C3: for every secret S, password P (and random throwaway-wallet address
that models the randomness inside `encrypt`), decrypting `encrypt(S, P)` with
the same password P returns exactly S. -/
theorem C3_decrypt_encrypt_roundtrip (S P randomWalletAddress : String) :
    KeyManager.decrypt (KeyManager.encrypt S P randomWalletAddress) P = .ok S :=
  KeyManager.decrypt_encrypt S P P randomWalletAddress

/-- C4: the claim fails on the code.  With the mnemonic-store write throwing
(`storeMnemonic` catches it and returns `false`), `createNewWallet` still
returns the account instead of `null`, and the subsequent `storePrivateKey`
leaves a WalletRecord for the new address in the registry while no mnemonic
was persisted: the boolean failure results of the persistence steps are
discarded. -/
theorem C4_persistence_failure_still_returns_account :
    (KeyManager.storeMnemonic VaultState.empty "test mnemonic words" "123456" "0xRandA" 99
        true).1 = false ∧
      (WalletService.createNewWallet VaultState.empty "test mnemonic words" "0xNewAddr"
          "0xNewKey" "123456" "0xRandA" "0xRandB" 99 true false false false).1
        = some ⟨"0xNewAddr", "0xNewKey", "test mnemonic words"⟩ ∧
      (WalletService.createNewWallet VaultState.empty "test mnemonic words" "0xNewAddr"
          "0xNewKey" "123456" "0xRandA" "0xRandB" 99 true false false false).2.mnemonicItem
        = none ∧
      (KeyManager.getWalletList
          (WalletService.createNewWallet VaultState.empty "test mnemonic words" "0xNewAddr"
            "0xNewKey" "123456" "0xRandA" "0xRandB" 99 true false false false).2).map
          (fun w => w.address)
        = ["0xNewAddr"] :=
  ⟨rfl, rfl, rfl, rfl⟩

/-- C5: the claim fails on the code at nonce 0.  `signAndSend` refills the
nonce whenever `!tx.nonce` is true, and in JavaScript `!0` is true: a
replacement transaction whose original nonce is 0 is resubmitted with the
provider's pending transaction count (7 here) instead of nonce 0, for both
`cancelTransaction` and `speedUpTransaction`.  (For any nonzero nonce the
original nonce is preserved.) -/
theorem C5_nonce_zero_not_preserved :
    (TransactionService.cancelTransaction
        { pendingNonce := 7, estimatedGas := 21000, feeGasPrice := some 30000000000,
          chainId := 1 } "0xSelf" 0 50).nonce = some 7 ∧
      (TransactionService.speedUpTransaction
          { pendingNonce := 7, estimatedGas := 21000, feeGasPrice := some 30000000000,
            chainId := 1 }
          { toAddr := "0xDest", value := 1, nonce := some 0, gasPrice := some 20000000000,
            maxFeePerGas := none, gasLimit := some 21000, chainId := 1 } 50).nonce = some 7 ∧
      (7 : Nat) ≠ 0 :=
  ⟨rfl, rfl, by decide⟩

/-- C6: whatever the proposal and address, every chain and every method that
`approveSession` grants occurs among the proposal's requested namespaces (its
required and optional parts together), even though the wallet supports four
chains and six methods. -/
theorem C6_approveSession_namespace_containment (proposal : SessionProposal) (address : String) :
    (∀ c ∈ (WalletConnectService.approveSession proposal address).chains,
        c ∈ proposal.requiredNamespace.chains ++ proposal.optionalNamespace.chains) ∧
      (∀ m ∈ (WalletConnectService.approveSession proposal address).methods,
        m ∈ proposal.requiredNamespace.methods ++ proposal.optionalNamespace.methods) := by
  constructor
  · intro c hc
    simp only [WalletConnectService.approveSession, buildApprovedNamespaces,
      List.mem_filter] at hc
    have hcont := hc.2
    rw [List.contains_eq_any_beq, List.any_eq_true] at hcont
    obtain ⟨x, hxmem, hbeq⟩ := hcont
    have hcx : c = x := by simpa using hbeq
    rwa [hcx]
  · intro m hm
    simp only [WalletConnectService.approveSession, buildApprovedNamespaces,
      List.mem_filter] at hm
    have hcont := hm.2
    rw [List.contains_eq_any_beq, List.any_eq_true] at hcont
    obtain ⟨x, hxmem, hbeq⟩ := hcont
    have hmx : m = x := by simpa using hbeq
    rwa [hmx]

/-- Witness for C6 at the proposal of end-to-end scenario 3 (requested chains
`[eip155:1]`, methods `[personal_sign]`) approved for `0xABC`. -/
theorem C6_approveSession_namespace_containment_witness :
    "eip155:1" ∈
      (SessionProposal.mk ⟨["eip155:1"], ["personal_sign"], []⟩
        ⟨[], [], []⟩).requiredNamespace.chains ++
      (SessionProposal.mk ⟨["eip155:1"], ["personal_sign"], []⟩ ⟨[], [], []⟩).optionalNamespace.chains :=
  (C6_approveSession_namespace_containment
      (SessionProposal.mk ⟨["eip155:1"], ["personal_sign"], []⟩ ⟨[], [], []⟩) "0xABC").1
    "eip155:1" (by decide)

/-- C7: `formatRequest` takes the message from `params[0]` for
`personal_sign` and from `params[1]` for `eth_sign`, hex-decoding it through
`decodeMessage`; `decodeMessage` recovers any UTF-8 text from its
`0x`-prefixed hex encoding; in particular a `personal_sign` request with
message `0x48656c6c6f` formats to the display string `"Hello"`. -/
theorem C7_formatRequest_message_decode (msg addr : String) :
    RequestHandler.formatRequest "personal_sign" [msg, addr]
        = .message (RequestHandler.decodeMessage msg) ∧
      RequestHandler.formatRequest "eth_sign" [addr, msg]
        = .message (RequestHandler.decodeMessage msg) ∧
      RequestHandler.decodeMessage (String.mk ('0' :: 'x' :: hexOfBytes (utf8Encode msg.data)))
        = msg ∧
      RequestHandler.formatRequest "personal_sign" ["0x48656c6c6f", addr]
        = .message "Hello" := by
  refine ⟨?_, ?_, ?_, ?_⟩
  · simp [RequestHandler.formatRequest]
  · simp [RequestHandler.formatRequest]
  · rw [RequestHandler.decodeMessage]
    rw [show RequestHandler.isHexMessage
        (String.mk ('0' :: 'x' :: hexOfBytes (utf8Encode msg.data))) = true from rfl]
    simp only [if_true]
    rw [show (String.mk ('0' :: 'x' :: hexOfBytes (utf8Encode msg.data))).data.drop 2
        = hexOfBytes (utf8Encode msg.data) from rfl]
    rw [hexToBytes_hexOfBytes _ (utf8Encode_lt_256 _)]
    simp only []
    rw [utf8Decode_utf8Encode]
  · simp only [RequestHandler.formatRequest]
    rw [if_pos (by decide)]
    simp only [if_pos (by decide : (("personal_sign" : String) == "personal_sign") = true)]
    rw [show List.getD ["0x48656c6c6f", addr] 0 "" = "0x48656c6c6f" from rfl]
    rw [show RequestHandler.decodeMessage "0x48656c6c6f" = "Hello" from by decide]

/-- C8: storing a private key again for an address already present in the
registry updates the record in place: the registry length and its address
sequence are unchanged by the second store. -/
theorem C8_storePrivateKey_registry_idempotent (st : VaultState)
    (address privateKey pin randomWalletAddress : String) (now : Nat)
    (h : address ∈ (KeyManager.getWalletList st).map (fun w => w.address)) :
    (KeyManager.getWalletList
          (KeyManager.storePrivateKey st address privateKey pin randomWalletAddress now
            false false).2).length
        = (KeyManager.getWalletList st).length ∧
      (KeyManager.getWalletList
          (KeyManager.storePrivateKey st address privateKey pin randomWalletAddress now
            false false).2).map (fun w => w.address)
        = (KeyManager.getWalletList st).map (fun w => w.address) := by
  have hst : KeyManager.getWalletList
      (KeyManager.storePrivateKey st address privateKey pin randomWalletAddress now
        false false).2
      = KeyManager.addToWalletList st.walletList address
          (KeyManager.encrypt privateKey pin randomWalletAddress) now := rfl
  rw [hst]
  exact addToWalletList_mem_length st.walletList address _ now h

/-- Witness for C8: a registry already holding `0xA`; re-storing for `0xA`
leaves one record with the same address sequence. -/
theorem C8_storePrivateKey_registry_idempotent_witness :
    (KeyManager.getWalletList
          (KeyManager.storePrivateKey ⟨none, [⟨"0xA", "oldblob", 1⟩], [], none⟩ "0xA" "0xKey2"
            "1234" "0xRand" 2 false false).2).length
        = (KeyManager.getWalletList (⟨none, [⟨"0xA", "oldblob", 1⟩], [], none⟩ : VaultState)).length ∧
      (KeyManager.getWalletList
          (KeyManager.storePrivateKey ⟨none, [⟨"0xA", "oldblob", 1⟩], [], none⟩ "0xA" "0xKey2"
            "1234" "0xRand" 2 false false).2).map (fun w => w.address)
        = (KeyManager.getWalletList (⟨none, [⟨"0xA", "oldblob", 1⟩], [], none⟩ : VaultState)).map
            (fun w => w.address) :=
  C8_storePrivateKey_registry_idempotent ⟨none, [⟨"0xA", "oldblob", 1⟩], [], none⟩ "0xA" "0xKey2"
    "1234" "0xRand" 2 (by decide)

/-- C9: PIN hashing collides: the distinct PINs `"Aa"` and `"BB"` share the
rolling-hash value (2112, hex `840`), so after `setPin("Aa")`,
`verifyPin("BB")` returns true — PIN verification is not injective. -/
theorem C9_hashPin_collision :
    KeyManager.hashPin "Aa" = KeyManager.hashPin "BB" ∧
      ("Aa" : String) ≠ "BB" ∧
      KeyManager.verifyPin (KeyManager.setPin VaultState.empty "Aa" false).2 "BB" = true := by
  refine ⟨by decide, by decide, by decide⟩

/-- C10: `deleteWallet` only removes registry records matching the given
address: the surviving registry is a subsequence of the original (same
records, same relative order), a record survives exactly when it was there and
its address differs, and every non-matching record keeps its multiplicity. -/
theorem C10_deleteWallet_frame (st : VaultState) (address : String) :
    (KeyManager.getWalletList (KeyManager.deleteWallet st address).2).Sublist
        (KeyManager.getWalletList st) ∧
      (∀ w : StoredWallet,
        w ∈ KeyManager.getWalletList (KeyManager.deleteWallet st address).2 ↔
          (w ∈ KeyManager.getWalletList st ∧ w.address ≠ address)) ∧
      (∀ w : StoredWallet, w.address ≠ address →
        (KeyManager.getWalletList (KeyManager.deleteWallet st address).2).count w
          = (KeyManager.getWalletList st).count w) := by
  have hdel : KeyManager.getWalletList (KeyManager.deleteWallet st address).2
      = st.walletList.filter (fun w => w.address != address) := rfl
  refine ⟨?_, ?_, ?_⟩
  · rw [hdel]
    exact List.filter_sublist _
  · intro w
    rw [hdel]
    simp [List.mem_filter, KeyManager.getWalletList]
  · intro w hw
    rw [hdel]
    exact List.count_filter (by simpa using hw)

/-- Witness for C10: deleting `0xA` from a two-record registry preserves the
multiplicity of the `0xB` record. -/
theorem C10_deleteWallet_frame_witness :
    (KeyManager.getWalletList
          (KeyManager.deleteWallet ⟨none, [⟨"0xA", "b1", 1⟩, ⟨"0xB", "b2", 2⟩], [], none⟩
            "0xA").2).count ⟨"0xB", "b2", 2⟩
      = (KeyManager.getWalletList
          (⟨none, [⟨"0xA", "b1", 1⟩, ⟨"0xB", "b2", 2⟩], [], none⟩ : VaultState)).count
          ⟨"0xB", "b2", 2⟩ :=
  (C10_deleteWallet_frame ⟨none, [⟨"0xA", "b1", 1⟩, ⟨"0xB", "b2", 2⟩], [], none⟩ "0xA").2.2
    ⟨"0xB", "b2", 2⟩ (by decide)

end Web3Wallet
